import Mathlib

/-!
Verification of a small music-recommendation pipeline (file `utils.py`):
a per-user genre-preference aggregator (`calculate_genre_preferences`),
a cosine-similarity user ranker (`find_similar_users`) and a weighted
genre recommender (`find_next_best_genre`).

Ratings are modelled as rationals (the source uses floating point; all
claims about numeric identities are exact at this granularity, matching
the "within tolerance" phrasing of the spec).  A raised Python exception is
modelled as `none` in an `Option`-valued result.  String primitives are
re-implemented over `List Char` so that concrete runs reduce in the
kernel.
-/

/-- Python `s.startswith(p)`. -/
def strStartsWith (s p : String) : Bool := p.data.isPrefixOf s.data

/-- Python `s.endswith(p)`. -/
def strEndsWith (s p : String) : Bool := p.data.isSuffixOf s.data

/-- Strip leading and trailing whitespace. -/
def trimChars (cs : List Char) : List Char :=
  ((cs.dropWhile Char.isWhitespace).reverse.dropWhile Char.isWhitespace).reverse

/-- Split a character list on commas (separator excluded). -/
def splitComma : List Char → List (List Char)
  | [] => [[]]
  | c :: rest =>
    if c = Char.ofNat 44 then [] :: splitComma rest
    else
      match splitComma rest with
      | [] => [[c]]
      | p :: ps => (c :: p) :: ps

/-- The single-quote character. -/
def squote : Char := Char.ofNat 39

/-- The double-quote character. -/
def dquote : Char := Char.ofNat 34

def isQuote (c : Char) : Bool := c == squote || c == dquote

/-- Python-dict lookup on an insertion-ordered association list. -/
def alookup {β : Type} : List (String × β) → String → Option β
  | [], _ => none
  | (k, v) :: rest, key => if k = key then some v else alookup rest key

/-- Aggregate statistics of the ratings of one user for one genre:
`[total, average, count]` in the source. -/
structure GenreStat where
  total : ℚ
  avg : ℚ
  count : ℕ
deriving DecidableEq

/-- The preferences of one user: mapping from genre to `GenreStat`, kept in
insertion order as the Python `defaultdict` is. -/
abbrev UserPrefs := List (String × GenreStat)

/-- Output of the aggregator: mapping from user id to `UserPrefs`. -/
abbrev Prefs := List (String × UserPrefs)

/-- A row of the rating table: the `genre` cell (`none` models a missing
or non-string value) and the remaining cells keyed by column name
(`none` models a null / NaN rating). -/
structure Row where
  genre : Option String
  cells : List (String × Option ℚ)

/-- The rating table: its column names in order, and its rows. -/
structure Table where
  cols : List String
  rows : List Row

/-- Cell access `row[c]` for a rating column: a missing key behaves like a null cell. -/
def getCell (r : Row) (c : String) : Option ℚ :=
  (alookup r.cells c).getD none

/-- Parse one element of a Python list literal as a quoted string. -/
def parseStrElem (cs : List Char) : Option String :=
  match trimChars cs with
  | [] => none
  | c :: rest =>
    if isQuote c = true ∧ rest.getLast? = some c ∧
        rest.dropLast.all (fun d => !(d == c)) = true
    then some (String.mk rest.dropLast) else none

/-- Modelled from the spec: the source calls the external standard-library
parser `ast.literal_eval` on a genre cell and keeps the result only when
it is a list ("attempt to parse it as a literal sequence").  We model the
fragment the genre cells exercise: list literals whose elements are quoted
strings.  Anything else (non-list literals, non-string elements, quotes or
commas nested inside elements) is treated as a parse failure, which the
caller turns into the raw-string fallback, exactly as the error-handling
section of the spec prescribes. -/
def parseListLiteral (s : String) : Option (List String) :=
  if strStartsWith s "[" = true ∧ strEndsWith s "]" = true then
    let inner := (s.data.drop 1).dropLast
    if trimChars inner = [] then some []
    else (splitComma inner).mapM parseStrElem
  else none

/-- The effective genre of a non-empty genre cell (lines 22-32 of the
source): a string shaped like a list literal is parsed; on success the
first element is taken — `none` models the uncaught `IndexError` raised by
`genres[0]` on an empty list — and on parse failure the raw string is
kept. -/
def effectiveGenre (g : String) : Option String :=
  if strStartsWith g "[" = true ∧ strEndsWith g "]" = true then
    match parseListLiteral g with
    | some gs => gs.head?
    | none => some g
  else some g

/-- The `current_stats` update (lines 44-46): add the rating to the total,
increment the count, recompute the average. -/
def statStep (s : GenreStat) (q : ℚ) : GenreStat :=
  let t := s.total + q
  let c := s.count + 1
  ⟨t, t / (c : ℚ), c⟩

/-- Update the genre entry of one user, auto-vivifying `[0, 0, 0]` on first
access as the inner `defaultdict` does; insertion order is preserved. -/
def updateGenre : UserPrefs → String → ℚ → UserPrefs
  | [], g, q => [(g, statStep ⟨0, 0, 0⟩ q)]
  | (g0, s) :: rest, g, q =>
    if g0 = g then (g0, statStep s q) :: rest
    else (g0, s) :: updateGenre rest g q

/-- Update the two-level mapping for one (user, genre, rating) triple,
auto-vivifying the user entry as the outer `defaultdict` does. -/
def updateStat : Prefs → String → String → ℚ → Prefs
  | [], u, g, q => [(u, updateGenre [] g q)]
  | (u0, up) :: rest, u, g, q =>
    if u0 = u then (u0, updateGenre up g q) :: rest
    else (u0, up) :: updateStat rest u g q

/-- The user columns of the table: `[col for col in songs_df.columns if
col.startswith(USER)]` with the user-column marker. -/
def userCols (cols : List String) : List String :=
  cols.filter (fun c => strStartsWith c "user_")

/-- Process one row (the body of the `for _, row in songs_df.iterrows()`
loop): skip a missing / non-string / empty genre, compute the effective
genre (`none` propagates the uncaught `IndexError`), then fold the
non-null ratings of every user column into the statistics. -/
def processRow (cols : List String) (st : Prefs) (r : Row) : Option Prefs :=
  match r.genre with
  | none => some st
  | some g0 =>
    if g0 = "" then some st
    else
      match effectiveGenre g0 with
      | none => none
      | some g =>
        some ((userCols cols).foldl (fun acc c =>
          match getCell r c with
          | none => acc
          | some q => updateStat acc c g q) st)

/-- Process the rows in order, threading the accumulated statistics;
a raised exception (`none`) aborts the whole computation. -/
def processRows (cols : List String) : Prefs → List Row → Option Prefs
  | st, [] => some st
  | st, r :: rs =>
    match processRow cols st r with
    | none => none
    | some st2 => processRows cols st2 rs

/-- The aggregator `calculate_genre_preferences` (lines 5-48): `none` models an uncaught
exception escaping the call. -/
def calculate_genre_preferences (t : Table) : Option Prefs :=
  processRows t.cols [] t.rows

/-- Look up the statistics of one (user, genre) pair. -/
def prefLookup (p : Prefs) (u g : String) : Option GenreStat :=
  match alookup p u with
  | none => none
  | some up => alookup up g

/-- Observe the aggregator at one (user, genre) pair: `none` = the call
raised; `some none` = the pair is absent; `some (some s)` = its stats. -/
def aggLookup (t : Table) (u g : String) : Option (Option GenreStat) :=
  (calculate_genre_preferences t).map (fun p => prefLookup p u g)

/-- First row of the end-to-end scenario: genre Rock, user_A = 5, user_B = 3. -/
def demoRow1 : Row := ⟨some "Rock", [("user_A", some 5), ("user_B", some 3)]⟩

/-- Second row of the end-to-end scenario: genre Pop, user_A = 2, user_B = 4. -/
def demoRow2 : Row := ⟨some "Pop", [("user_A", some 2), ("user_B", some 4)]⟩

/-- The two-row end-to-end table of the scenario in the spec. -/
def demoTable : Table := ⟨["genre", "user_A", "user_B"], [demoRow1, demoRow2]⟩

/-- Dot product `np.dot` of two equally long vectors. -/
def dotQ (v w : List ℚ) : ℚ := (List.zipWith (fun a b => a * b) v w).sum

/-- Sum of squares of the entries of a vector. -/
def sumSq (v : List ℚ) : ℚ := (v.map (fun x => x * x)).sum

/-- Euclidean norm `np.linalg.norm` of a vector. -/
noncomputable def normV (v : List ℚ) : ℝ := Real.sqrt ((sumSq v : ℚ) : ℝ)

/-- Cosine similarity as computed in lines 94-104 of the source: defined
as `0` when either norm vanishes, `dot / (norm * norm)` otherwise. -/
noncomputable def cosineSim (v w : List ℚ) : ℝ :=
  if normV v = 0 ∨ normV w = 0 then 0
  else ((dotQ v w : ℚ) : ℝ) / (normV v * normV w)

/-- Add a genre to the universal genre set, modelled as an insertion-order
list with unique members (the source uses a Python `set`; the spec states
the order of this basis is irrelevant). -/
def insertUniq (l : List String) (x : String) : List String :=
  if x ∈ l then l else l ++ [x]

/-- The universal genre set: the union of the genres of every user. -/
def allGenresOf (p : Prefs) : List String :=
  p.foldl (fun acc q => q.2.foldl (fun a r => insertUniq a r.1) acc) []

/-- The similarity vector of one user over the universal genre basis:
the average rating where present, `0` where absent (line 77). -/
def vecOf (allG : List String) (up : UserPrefs) : List ℚ :=
  allG.map (fun g => match alookup up g with | some s => s.avg | none => 0)

/-- The ranker `find_similar_users` (lines 50-110): cosine similarity to every other
user, stable descending sort, first `n` user ids. -/
noncomputable def find_similar_users (target : String) (p : Prefs) (n : ℕ) :
    List String :=
  if (alookup p target).isNone = true then []
  else
    let allG := allGenresOf p
    let userVectors := p.map (fun q => (q.1, vecOf allG q.2))
    match alookup userVectors target with
    | none => []
    | some tv =>
      let sims := (userVectors.filter (fun q => decide (q.1 ≠ target))).map
        (fun q => (q.1, cosineSim tv q.2))
      ((sims.mergeSort (fun a b => decide (b.2 ≤ a.2))).take n).map (fun q => q.1)

/-- Accumulation `genre_scores[genre] += x` on the insertion-ordered score list,
auto-vivifying `0.0` as `defaultdict(float)` does. -/
def addScore : List (String × ℚ) → String → ℚ → List (String × ℚ)
  | [], g, x => [(g, 0 + x)]
  | (g0, v) :: rest, g, x =>
    if g0 = g then (g0, v + x) :: rest else (g0, v) :: addScore rest g x

/-- Python `similar_users.index(u)`: index of the first occurrence. -/
def idxOf (u : String) : List String → ℕ
  | [] => 0
  | v :: rest => if v = u then 0 else idxOf u rest + 1

/-- The weight `1 - similar_users.index(u) / len(similar_users)` (line 148). -/
def simWeight (similar : List String) (u : String) : ℚ :=
  1 - ((idxOf u similar : ℚ) / (similar.length : ℚ))

/-- The loop of lines 136-149: every similar user in list order (users
absent from the mapping are skipped), every genre of that user outside the
top-`k` set, scores accumulated additively. -/
def collectScores (p : Prefs) (similar : List String) (topG : List String) :
    List (String × ℚ) :=
  similar.foldl (fun sc u =>
    match alookup p u with
    | none => sc
    | some up => up.foldl (fun sc2 q =>
        if q.1 ∈ topG then sc2
        else addScore sc2 q.1 (q.2.avg * simWeight similar u)) sc) []

/-- The top-`k` genres of the target user by average rating, stable
descending sort (lines 130-131). -/
def topGenres (tp : UserPrefs) (k : ℕ) : List String :=
  ((tp.mergeSort (fun a b => decide (b.2.avg ≤ a.2.avg))).take k).map (fun q => q.1)

/-- The recommender `find_next_best_genre` (lines 112-159). -/
def find_next_best_genre (target : String) (p : Prefs) (similar : List String)
    (k : ℕ) : Option String :=
  if similar = [] ∨ alookup p target = none then none
  else
    let tp := (alookup p target).getD []
    let topG := topGenres tp k
    let scores := collectScores p similar topG
    if scores = [] then none
    else ((scores.mergeSort (fun a b => decide (b.2 ≤ a.2))).head?).map (fun q => q.1)

/-- Whether processing a row raises the uncaught `IndexError`. -/
def rowFails (r : Row) : Bool :=
  match r.genre with
  | none => false
  | some g0 => if g0 = "" then false else (effectiveGenre g0).isNone

/-- The ratings one row contributes to the (u, g) statistics: one entry
per occurrence of the user column with a non-null rating, provided the
effective genre of the row is `g`. -/
def rowContribs (cols : List String) (u g : String) (r : Row) : List ℚ :=
  match r.genre with
  | none => []
  | some g0 =>
    if g0 = "" then []
    else
      match effectiveGenre g0 with
      | none => []
      | some g1 =>
        if g1 = g then
          (userCols cols).filterMap (fun c => if c = u then getCell r c else none)
        else []

/-- All ratings a list of rows contributes to the (u, g) statistics, in
processing order. -/
def contribs (cols : List String) (u g : String) (rows : List Row) : List ℚ :=
  rows.flatMap (rowContribs cols u g)

/-- Fold a list of contributed ratings into an optional statistics cell
(`none` = the cell does not exist yet). -/
def applyContribs (o : Option GenreStat) (l : List ℚ) : Option GenreStat :=
  l.foldl (fun acc q => some (statStep (acc.getD ⟨0, 0, 0⟩) q)) o

/-- The closed form of a statistics cell built from a contribution list. -/
def finalStat (l : List ℚ) : Option GenreStat :=
  if l = [] then none
  else some ⟨l.sum, l.sum / (l.length : ℚ), l.length⟩

/-- The aggregator output on `demoTable`, as the spec states it. -/
def demoPrefs : Prefs :=
  [("user_A", [("Rock", ⟨5, 5, 1⟩), ("Pop", ⟨2, 2, 1⟩)]),
   ("user_B", [("Rock", ⟨3, 3, 1⟩), ("Pop", ⟨4, 4, 1⟩)])]

def quoteWrap (s : String) : List Char := squote :: s.data ++ [squote]

/-- The malformed genre cell holding a quoted list of Jazz and Blues. -/
def jazzBluesCell : String :=
  String.mk ("[".data ++ quoteWrap "Jazz" ++ ", ".data ++ quoteWrap "Blues" ++ "]".data)

/-- One-row table whose genre cell is the Jazz/Blues list literal. -/
def jazzBluesTable : Table :=
  ⟨["genre", "user_A"], [⟨some jazzBluesCell, [("user_A", some 5)]⟩]⟩

/-- One-row table whose genre cell is the invalid literal left bracket Jazz. -/
def bracketJazzTable : Table :=
  ⟨["genre", "user_A"], [⟨some "[Jazz", [("user_A", some 5)]⟩]⟩

/-- One-row table whose genre cell is the empty list literal. -/
def emptyListCellTable : Table :=
  ⟨["genre", "user_A"], [⟨some "[]", [("user_A", some 5)]⟩]⟩

/-- Aggregator state after processing row 1 only of `demoTable`. -/
def demoPrefs1 : Prefs :=
  [("user_A", [("Rock", ⟨5, 5, 1⟩)]), ("user_B", [("Rock", ⟨3, 3, 1⟩)])]

/-- The weighted terms the preference list of one user contributes to the
score of genre `g`: one term `avg * w` per entry with genre `g` outside
the excluded set. -/
def userGenreTerms (up : UserPrefs) (topG : List String) (g : String) (w : ℚ) :
    List ℚ :=
  (up.filter (fun q => decide (q.1 = g ∧ q.1 ∉ topG))).map (fun q => q.2.avg * w)

/-- The weighted terms one similar user contributes to the score of
genre `g`: none when the user is absent from the mapping, and otherwise
the terms of its preference list weighted by the rank-based weight
computed from the full similar-users list. -/
def userTermsOf (p : Prefs) (similar : List String) (topG : List String)
    (g : String) (u : String) : List ℚ :=
  match alookup p u with
  | none => []
  | some up => userGenreTerms up topG g (simWeight similar u)

/-- All weighted terms the users of `us` contribute to genre `g`, with
weights computed from the list `similar`. -/
def allTerms (p : Prefs) (similar us : List String) (topG : List String)
    (g : String) : List ℚ :=
  us.flatMap (userTermsOf p similar topG g)

/-- The spec formula for the accumulated score of a candidate genre:
the sum, over every user of the similar list and every preference entry
of that user with genre `g` outside the excluded set, of
`average * (1 - index / length)`. -/
def specScore (p : Prefs) (similar : List String) (topG : List String)
    (g : String) : ℚ :=
  (allTerms p similar similar topG g).sum

/-- A genre qualifies as a candidate when some user of the similar list
is present in the mapping and holds an entry for that genre outside the
excluded set. -/
def qualifies (p : Prefs) (similar : List String) (topG : List String)
    (g : String) : Prop :=
  ∃ u ∈ similar, ∃ up, alookup p u = some up ∧ ∃ q ∈ up, q.1 = g ∧ q.1 ∉ topG

theorem alookup_updateGenre (up : UserPrefs) (g : String) (q : ℚ) (g2 : String) :
    alookup (updateGenre up g q) g2 =
      if g2 = g then some (statStep ((alookup up g).getD ⟨0, 0, 0⟩) q)
      else alookup up g2 := by
  induction up with
  | nil =>
    by_cases h : g2 = g
    · simp [updateGenre, alookup, h]
    · simp [updateGenre, alookup, h, Ne.symm h]
  | cons hd tl ih =>
    obtain ⟨g0, s⟩ := hd
    by_cases h0 : g0 = g
    · subst h0
      by_cases h : g2 = g0
      · simp [updateGenre, alookup, h]
      · simp [updateGenre, alookup, h, Ne.symm h]
    · by_cases h : g2 = g
      · subst h
        simp [updateGenre, alookup, h0, Ne.symm h0, ih]
      · by_cases h2 : g0 = g2 <;>
          simp [updateGenre, alookup, h0, h2, ih, h]

theorem alookup_updateStat (st : Prefs) (u g : String) (q : ℚ) (u2 : String) :
    alookup (updateStat st u g q) u2 =
      if u2 = u then some (updateGenre ((alookup st u).getD []) g q)
      else alookup st u2 := by
  induction st with
  | nil =>
    by_cases h : u2 = u
    · simp [updateStat, alookup, h]
    · simp [updateStat, alookup, h, Ne.symm h]
  | cons hd tl ih =>
    obtain ⟨u0, up⟩ := hd
    by_cases h0 : u0 = u
    · subst h0
      by_cases h : u2 = u0
      · simp [updateStat, alookup, h]
      · simp [updateStat, alookup, h, Ne.symm h]
    · by_cases h : u2 = u
      · subst h
        simp [updateStat, alookup, h0, Ne.symm h0, ih]
      · by_cases h2 : u0 = u2 <;>
          simp [updateStat, alookup, h0, h2, ih, h]

theorem prefLookup_updateStat (st : Prefs) (u g : String) (q : ℚ) (u2 g2 : String) :
    prefLookup (updateStat st u g q) u2 g2 =
      if u2 = u ∧ g2 = g then
        some (statStep ((prefLookup st u g).getD ⟨0, 0, 0⟩) q)
      else prefLookup st u2 g2 := by
  unfold prefLookup
  rw [alookup_updateStat]
  by_cases hu : u2 = u
  · subst hu
    rw [if_pos rfl]
    show alookup (updateGenre ((alookup st u2).getD []) g q) g2 = _
    rw [alookup_updateGenre]
    by_cases hg : g2 = g
    · subst hg
      rw [if_pos rfl, if_pos ⟨rfl, rfl⟩]
      cases alookup st u2 <;> simp [alookup]
    · rw [if_neg hg, if_neg (fun h => hg h.2)]
      cases alookup st u2 <;> simp [alookup]
  · rw [if_neg hu, if_neg (fun h => hu h.1)]

/-- The `(u, g)` cell after the per-row user-column fold. -/
theorem prefLookup_colsFold (r : Row) (g : String) (cs : List String)
    (st : Prefs) (u g2 : String) :
    prefLookup (cs.foldl (fun acc c =>
        match getCell r c with
        | none => acc
        | some q => updateStat acc c g q) st) u g2 =
      if g2 = g then
        applyContribs (prefLookup st u g)
          (cs.filterMap (fun c => if c = u then getCell r c else none))
      else prefLookup st u g2 := by
  induction cs generalizing st with
  | nil => by_cases h : g2 = g <;> simp [applyContribs, h]
  | cons c cs ih =>
    rw [List.foldl_cons, List.filterMap_cons]
    by_cases hcu : c = u
    · subst hcu
      rw [if_pos rfl]
      cases hq : getCell r c with
      | none => simp only [ih]
      | some q =>
        simp only [ih, prefLookup_updateStat]
        by_cases hg : g2 = g
        · subst hg
          simp [applyContribs]
        · simp [hg]
    · rw [if_neg hcu]
      cases hq : getCell r c with
      | none => simp only [ih]
      | some q =>
        simp only [ih, prefLookup_updateStat]
        by_cases hg : g2 = g
        · subst hg
          simp [hcu, Ne.symm hcu]
        · simp [hg, hcu, Ne.symm hcu]

theorem processRow_eq_none (cols : List String) (st : Prefs) (r : Row) :
    processRow cols st r = none ↔ rowFails r = true := by
  unfold processRow rowFails
  cases r.genre with
  | none => simp
  | some g0 =>
    by_cases h : g0 = ""
    · simp [h]
    · cases hg : effectiveGenre g0 <;> simp [h, hg]

theorem prefLookup_processRow (cols : List String) (st : Prefs) (r : Row)
    (st2 : Prefs) (h : processRow cols st r = some st2) (u g : String) :
    prefLookup st2 u g = applyContribs (prefLookup st u g) (rowContribs cols u g r) := by
  unfold processRow at h
  unfold rowContribs
  cases hg : r.genre with
  | none =>
    simp only [hg, Option.some.injEq] at h ⊢
    subst h
    simp [applyContribs]
  | some g0 =>
    simp only [hg] at h ⊢
    by_cases h0 : g0 = ""
    · rw [if_pos h0] at h ⊢
      simp only [Option.some.injEq] at h
      subst h
      simp [applyContribs]
    · rw [if_neg h0] at h ⊢
      cases he : effectiveGenre g0 with
      | none =>
        simp only [he] at h
        exact Option.noConfusion h
      | some g1 =>
        simp only [he, Option.some.injEq] at h
        subst h
        rw [prefLookup_colsFold r g1 (userCols cols) st u g]
        by_cases hgg : g1 = g
        · subst hgg
          simp
        · simp [hgg, Ne.symm hgg, applyContribs]

theorem processRows_eq_none (cols : List String) (st : Prefs) (rows : List Row) :
    processRows cols st rows = none ↔ ∃ r ∈ rows, rowFails r = true := by
  induction rows generalizing st with
  | nil => simp [processRows]
  | cons r rs ih =>
    unfold processRows
    cases hr : processRow cols st r with
    | none =>
      have := (processRow_eq_none cols st r).mp hr
      simp [this]
    | some st3 =>
      have : ¬ rowFails r = true := fun hb =>
        (by rw [(processRow_eq_none cols st r).mpr hb] at hr; exact Option.noConfusion hr)
      simp [ih, this]

theorem applyContribs_append (o : Option GenreStat) (l1 l2 : List ℚ) :
    applyContribs o (l1 ++ l2) = applyContribs (applyContribs o l1) l2 := by
  simp [applyContribs, List.foldl_append]

theorem prefLookup_processRows (cols : List String) (st : Prefs) (rows : List Row)
    (st2 : Prefs) (h : processRows cols st rows = some st2) (u g : String) :
    prefLookup st2 u g =
      applyContribs (prefLookup st u g) (contribs cols u g rows) := by
  induction rows generalizing st with
  | nil =>
    unfold processRows at h
    simp at h
    subst h
    simp [contribs, applyContribs]
  | cons r rs ih =>
    unfold processRows at h
    cases hr : processRow cols st r with
    | none => rw [hr] at h; exact Option.noConfusion h
    | some st3 =>
      rw [hr] at h
      have h1 := prefLookup_processRow cols st r st3 hr u g
      have h2 : processRows cols st3 rs = some st2 := h
      have h3 := ih st3 h2
      rw [h3, h1]
      simp only [contribs, List.flatMap_cons, applyContribs_append]

theorem applyContribs_some_closed (l : List ℚ) (s : GenreStat) (h : l ≠ []) :
    applyContribs (some s) l =
      some ⟨s.total + l.sum, (s.total + l.sum) / ((s.count + l.length : ℕ) : ℚ),
        s.count + l.length⟩ := by
  induction l generalizing s with
  | nil => exact (h rfl).elim
  | cons q l2 ih =>
    by_cases h2 : l2 = []
    · subst h2
      simp [applyContribs, statStep]
    · have step1 : applyContribs (some s) (q :: l2) =
          applyContribs (some (statStep s q)) l2 := by
        simp [applyContribs]
      rw [step1, ih (statStep s q) h2]
      simp only [statStep, Option.some.injEq, GenreStat.mk.injEq, List.sum_cons,
        List.length_cons]
      refine ⟨by ring, ?_, by omega⟩
      have hn : s.count + 1 + l2.length = s.count + (l2.length + 1) := by omega
      rw [hn]
      ring

theorem applyContribs_none (l : List ℚ) :
    applyContribs none l = finalStat l := by
  cases l with
  | nil => simp [applyContribs, finalStat]
  | cons q l2 =>
    have step1 : applyContribs none (q :: l2) =
        applyContribs (some (statStep ⟨0, 0, 0⟩ q)) l2 := by
      simp [applyContribs]
    by_cases h2 : l2 = []
    · subst h2
      simp [applyContribs, finalStat, statStep]
    · rw [step1, applyContribs_some_closed l2 _ h2]
      simp only [finalStat, statStep]
      rw [if_neg (by simp)]
      simp only [Option.some.injEq, GenreStat.mk.injEq, List.sum_cons,
        List.length_cons]
      refine ⟨by ring, ?_, by omega⟩
      have hn : (0 : ℕ) + 1 + l2.length = l2.length + 1 := by omega
      rw [hn]
      ring

/-- The aggregator observed at one (user, genre) pair: it raises exactly
when some row raises, and otherwise the cell holds the closed-form
statistics of the contributed ratings. -/
theorem aggLookup_characterization (t : Table) (u g : String) :
    aggLookup t u g =
      if ∃ r ∈ t.rows, rowFails r = true then none
      else some (finalStat (contribs t.cols u g t.rows)) := by
  unfold aggLookup calculate_genre_preferences
  by_cases hf : ∃ r ∈ t.rows, rowFails r = true
  · rw [(processRows_eq_none t.cols [] t.rows).mpr hf]
    simp [hf]
  · rw [if_neg hf]
    cases hp : processRows t.cols [] t.rows with
    | none => exact ((hf ((processRows_eq_none t.cols [] t.rows).mp hp)).elim)
    | some st2 =>
      have h4 := prefLookup_processRows t.cols [] t.rows st2 hp u g
      have h3 : prefLookup [] u g = none := rfl
      rw [h3, applyContribs_none] at h4
      simp [h4]

/-- Computation rule for a stable merge sort of a two-element list. -/
theorem mergeSort_pair {α : Type} (le : α → α → Bool) (a b : α) :
    [a, b].mergeSort le = if le a b then [a, b] else [b, a] := by
  simp [List.mergeSort, List.splitInTwo, List.splitAt, List.splitAt.go, List.merge]

/-- C1: on the two-row demo table the aggregator produces exactly the
stats of the spec scenario, `find_similar_users` on user_A with n = 1
returns user_B, and `find_next_best_genre` on user_A with the similar
list [user_B] and k = 1 returns Pop. -/
theorem claim_C1 :
    calculate_genre_preferences demoTable = some demoPrefs ∧
    find_similar_users "user_A" demoPrefs 1 = ["user_B"] ∧
    find_next_best_genre "user_A" demoPrefs ["user_B"] 1 = some "Pop" := by
  refine ⟨?_, ?_, ?_⟩
  · simp [calculate_genre_preferences, demoTable, demoRow1, demoRow2, demoPrefs,
      processRows, processRow, effectiveGenre, parseListLiteral, strStartsWith,
      strEndsWith, userCols, getCell, alookup, updateStat, updateGenre, statStep]
  · simp [find_similar_users, alookup, allGenresOf, insertUniq, vecOf, demoPrefs,
      List.mergeSort_singleton]
  · norm_num [find_next_best_genre, alookup, topGenres, collectScores, addScore,
      simWeight, idxOf, mergeSort_pair, demoPrefs]
    simp [alookup, addScore, List.mergeSort_singleton]

/-- C2: after processing any prefix of the rows, every stored (user,
genre) cell has a positive count, its average equals its total divided by
its count, and its total and count are the sum and the number of the
ratings contributed to that pair by the processed prefix. -/
theorem claim_C2 (t : Table) (i : ℕ) (st : Prefs)
    (h : processRows t.cols [] (t.rows.take i) = some st)
    (u g : String) (s : GenreStat) (hs : prefLookup st u g = some s) :
    0 < s.count ∧ s.avg = s.total / (s.count : ℚ) ∧
    s.total = (contribs t.cols u g (t.rows.take i)).sum ∧
    s.count = (contribs t.cols u g (t.rows.take i)).length := by
  have h1 := prefLookup_processRows t.cols [] (t.rows.take i) st h u g
  have h2 : prefLookup [] u g = none := rfl
  rw [h2, applyContribs_none, hs] at h1
  unfold finalStat at h1
  by_cases hl : contribs t.cols u g (t.rows.take i) = []
  · rw [if_pos hl] at h1
    exact Option.noConfusion h1
  · rw [if_neg hl] at h1
    simp only [Option.some.injEq] at h1
    subst h1
    exact ⟨List.length_pos.mpr hl, rfl, rfl, rfl⟩

theorem claim_C2_witness :
    0 < (GenreStat.mk 5 5 1).count ∧
    (GenreStat.mk 5 5 1).avg = (GenreStat.mk 5 5 1).total / ((GenreStat.mk 5 5 1).count : ℚ) ∧
    (GenreStat.mk 5 5 1).total =
      (contribs demoTable.cols "user_A" "Rock" (demoTable.rows.take 1)).sum ∧
    (GenreStat.mk 5 5 1).count =
      (contribs demoTable.cols "user_A" "Rock" (demoTable.rows.take 1)).length :=
  claim_C2 demoTable 1 demoPrefs1
    (by simp [demoTable, demoRow1, demoPrefs1, processRows, processRow,
      effectiveGenre, strStartsWith, strEndsWith, userCols, getCell, alookup,
      updateStat, updateGenre, statStep])
    "user_A" "Rock" ⟨5, 5, 1⟩
    (by simp [demoPrefs1, prefLookup, alookup])

/-- C3: permuting the rows of a table leaves the aggregator observation
at every (user, genre) pair unchanged (same raising behaviour, same
final total, average and count). -/
theorem claim_C3 (cols : List String) (rows rows2 : List Row)
    (h : rows.Perm rows2) (u g : String) :
    aggLookup ⟨cols, rows⟩ u g = aggLookup ⟨cols, rows2⟩ u g := by
  rw [aggLookup_characterization, aggLookup_characterization]
  by_cases hf : ∃ r ∈ rows, rowFails r = true
  · have hf2 : ∃ r ∈ rows2, rowFails r = true := by
      obtain ⟨r, hr, hb⟩ := hf
      exact ⟨r, h.mem_iff.mp hr, hb⟩
    rw [if_pos hf, if_pos hf2]
  · have hf2 : ¬ ∃ r ∈ rows2, rowFails r = true := by
      rintro ⟨r, hr, hb⟩
      exact hf ⟨r, h.mem_iff.mpr hr, hb⟩
    rw [if_neg hf, if_neg hf2]
    have hperm : (contribs cols u g rows).Perm (contribs cols u g rows2) :=
      List.Perm.flatMap_right (rowContribs cols u g) h
    congr 1
    unfold finalStat
    by_cases hempty : contribs cols u g rows = []
    · have h3 : contribs cols u g rows2 = [] := by
        rw [hempty] at hperm
        exact hperm.symm.eq_nil
      rw [hempty, h3]
    · have h3 : contribs cols u g rows2 ≠ [] := by
        intro hh
        rw [hh] at hperm
        exact hempty hperm.eq_nil
      rw [if_neg hempty, if_neg h3, hperm.sum_eq, hperm.length_eq]

theorem claim_C3_witness :
    aggLookup ⟨["genre", "user_A", "user_B"], [demoRow1, demoRow2]⟩ "user_A" "Rock" =
    aggLookup ⟨["genre", "user_A", "user_B"], [demoRow2, demoRow1]⟩ "user_A" "Rock" :=
  claim_C3 ["genre", "user_A", "user_B"] [demoRow1, demoRow2] [demoRow2, demoRow1]
    (List.Perm.swap demoRow2 demoRow1 []) "user_A" "Rock"

/-- C8: a genre cell that begins with a left bracket and ends with a
right bracket is parsed; a successful parse into a non-empty list makes
its first element the effective genre, a parse failure keeps the raw
string; the Jazz/Blues list literal aggregates under the key Jazz, and
the invalid literal left-bracket-Jazz aggregates under itself. -/
theorem claim_C8 :
    (∀ s : String, strStartsWith s "[" = true → strEndsWith s "]" = true →
      (∀ g gs, parseListLiteral s = some (g :: gs) → effectiveGenre s = some g) ∧
      (parseListLiteral s = none → effectiveGenre s = some s)) ∧
    effectiveGenre jazzBluesCell = some "Jazz" ∧
    effectiveGenre "[Jazz" = some "[Jazz" ∧
    aggLookup jazzBluesTable "user_A" "Jazz" = some (some ⟨5, 5, 1⟩) ∧
    aggLookup bracketJazzTable "user_A" "[Jazz" = some (some ⟨5, 5, 1⟩) := by
  refine ⟨?_, by decide, by decide, ?_, ?_⟩
  · intro s h1 h2
    constructor
    · intro g gs hp
      unfold effectiveGenre
      rw [if_pos ⟨h1, h2⟩, hp]
      rfl
    · intro hp
      unfold effectiveGenre
      rw [if_pos ⟨h1, h2⟩, hp]
  · simp [aggLookup, calculate_genre_preferences, jazzBluesTable, processRows,
      processRow, (by decide : effectiveGenre jazzBluesCell = some "Jazz"),
      (by decide : ¬(jazzBluesCell = "")),
      userCols, getCell, alookup, updateStat, updateGenre, statStep, prefLookup]
  · simp [aggLookup, calculate_genre_preferences, bracketJazzTable, processRows,
      processRow, (by decide : effectiveGenre "[Jazz" = some "[Jazz"),
      userCols, getCell, alookup, updateStat, updateGenre, statStep, prefLookup]

theorem claim_C8_witness :
    effectiveGenre jazzBluesCell = some "Jazz" ∧ effectiveGenre "[Jazz]" = some "[Jazz]" :=
  ⟨(claim_C8.1 jazzBluesCell (by decide) (by decide)).1 "Jazz" ["Blues"] (by decide),
   (claim_C8.1 "[Jazz]" (by decide) (by decide)).2 (by decide)⟩

/-- C9: the genre cell consisting of the empty list literal parses
successfully to an empty sequence, whose first element is then taken
without any emptiness check: the aggregator raises an uncaught
`IndexError` (modelled as `none`). -/
theorem claim_C9 :
    parseListLiteral "[]" = some [] ∧
    effectiveGenre "[]" = none ∧
    calculate_genre_preferences emptyListCellTable = none := by
  refine ⟨by decide, by decide, ?_⟩
  decide

theorem alookup_addScore (sc : List (String × ℚ)) (g : String) (x : ℚ)
    (g2 : String) :
    alookup (addScore sc g x) g2 =
      if g2 = g then some ((alookup sc g).getD 0 + x) else alookup sc g2 := by
  induction sc with
  | nil =>
    by_cases h : g2 = g
    · simp [addScore, alookup, h]
    · simp [addScore, alookup, h, Ne.symm h]
  | cons hd tl ih =>
    obtain ⟨g0, v⟩ := hd
    by_cases h0 : g0 = g
    · subst h0
      by_cases h : g2 = g0
      · simp [addScore, alookup, h]
      · simp [addScore, alookup, h, Ne.symm h]
    · by_cases h : g2 = g
      · subst h
        simp [addScore, alookup, h0, Ne.symm h0, ih]
      · by_cases h2 : g0 = g2 <;>
          simp [addScore, alookup, h0, h2, ih, h]

/-- The genre-score cell after folding the preference entries of one user. -/
theorem alookup_innerFold (up : UserPrefs) (topG : List String) (w : ℚ)
    (g : String) : ∀ sc : List (String × ℚ),
    alookup (up.foldl (fun sc2 q =>
        if q.1 ∈ topG then sc2 else addScore sc2 q.1 (q.2.avg * w)) sc) g =
      if userGenreTerms up topG g w = [] then alookup sc g
      else some ((alookup sc g).getD 0 + (userGenreTerms up topG g w).sum) := by
  induction up with
  | nil => intro sc; simp [userGenreTerms]
  | cons hd tl ih =>
    intro sc
    obtain ⟨g0, s⟩ := hd
    rw [List.foldl_cons]
    by_cases htop : g0 ∈ topG
    · have hterms : userGenreTerms ((g0, s) :: tl) topG g w =
          userGenreTerms tl topG g w := by
        simp [userGenreTerms, htop]
      rw [if_pos htop, hterms, ih sc]
    · by_cases hg : g0 = g
      · subst hg
        have hterms : userGenreTerms ((g0, s) :: tl) topG g0 w =
            s.avg * w :: userGenreTerms tl topG g0 w := by
          simp [userGenreTerms, htop]
        rw [if_neg htop, hterms, ih (addScore sc g0 (s.avg * w))]
        by_cases h2 : userGenreTerms tl topG g0 w = []
        · rw [if_pos h2, if_neg (by simp), alookup_addScore, if_pos rfl, h2]
          simp
        · rw [if_neg h2, if_neg (by simp), alookup_addScore, if_pos rfl]
          simp only [List.sum_cons, Option.getD_some]
          congr 1
          ring
      · have hterms : userGenreTerms ((g0, s) :: tl) topG g w =
            userGenreTerms tl topG g w := by
          simp [userGenreTerms, hg]
        rw [if_neg htop, hterms, ih (addScore sc g0 (s.avg * w))]
        have hlk : alookup (addScore sc g0 (s.avg * w)) g = alookup sc g := by
          rw [alookup_addScore, if_neg (Ne.symm hg)]
        rw [hlk]

/-- The genre-score cell after folding any list of similar users. -/
theorem alookup_scoresFold (p : Prefs) (similar : List String)
    (topG : List String) (g : String) : ∀ (us : List String)
    (sc : List (String × ℚ)),
    alookup (us.foldl (fun sc u =>
        match alookup p u with
        | none => sc
        | some up => up.foldl (fun sc2 q =>
            if q.1 ∈ topG then sc2
            else addScore sc2 q.1 (q.2.avg * simWeight similar u)) sc) sc) g =
      if allTerms p similar us topG g = [] then alookup sc g
      else some ((alookup sc g).getD 0 + (allTerms p similar us topG g).sum) := by
  intro us
  induction us with
  | nil => intro sc; simp [allTerms]
  | cons u us ih =>
    intro sc
    rw [List.foldl_cons]
    cases hu : alookup p u with
    | none =>
      have hterms : allTerms p similar (u :: us) topG g =
          allTerms p similar us topG g := by
        simp [allTerms, userTermsOf, hu]
      rw [hterms, ih sc]
    | some up =>
      have hterms : allTerms p similar (u :: us) topG g =
          userGenreTerms up topG g (simWeight similar u) ++
            allTerms p similar us topG g := by
        simp [allTerms, userTermsOf, hu]
      rw [hterms, ih _]
      rw [alookup_innerFold up topG (simWeight similar u) g sc]
      by_cases h1 : userGenreTerms up topG g (simWeight similar u) = []
      · rw [h1]
        simp
      · by_cases h2 : allTerms p similar us topG g = []
        · rw [if_neg h1, h2]
          simp only [List.append_nil, List.sum_nil, add_zero]
          rw [if_neg h1]
          simp
        · rw [if_neg h1, if_neg h2, if_neg (by simp [h1])]
          simp only [Option.getD_some, List.sum_append]
          congr 1
          ring

/-- The score list built by `collectScores`, observed at one genre. -/
theorem alookup_collectScores (p : Prefs) (similar : List String)
    (topG : List String) (g : String) :
    alookup (collectScores p similar topG) g =
      if allTerms p similar similar topG g = [] then none
      else some ((allTerms p similar similar topG g).sum) := by
  unfold collectScores
  rw [alookup_scoresFold p similar topG g similar []]
  by_cases h : allTerms p similar similar topG g = []
  · rw [if_pos h, if_pos h]
    rfl
  · rw [if_neg h, if_neg h]
    simp [alookup]

theorem alookup_eq_none_iff {β : Type} (sc : List (String × β)) (k : String) :
    alookup sc k = none ↔ k ∉ sc.map Prod.fst := by
  induction sc with
  | nil => simp [alookup]
  | cons hd tl ih =>
    obtain ⟨k0, v⟩ := hd
    by_cases h : k0 = k
    · subst h
      simp [alookup]
    · simp [alookup, h, Ne.symm h, ih]

theorem alookup_mem {β : Type} (sc : List (String × β)) (k : String) (v : β)
    (h : alookup sc k = some v) : (k, v) ∈ sc := by
  induction sc with
  | nil => exact Option.noConfusion h
  | cons hd tl ih =>
    obtain ⟨k0, v0⟩ := hd
    by_cases h0 : k0 = k
    · subst h0
      rw [alookup, if_pos rfl] at h
      simp only [Option.some.injEq] at h
      subst h
      exact List.mem_cons_self _ _
    · rw [alookup, if_neg h0] at h
      exact List.mem_cons_of_mem _ (ih h)

theorem mem_alookup_nodup {β : Type} (sc : List (String × β)) (k : String) (v : β)
    (hn : (sc.map Prod.fst).Nodup) (h : (k, v) ∈ sc) : alookup sc k = some v := by
  induction sc with
  | nil => exact (List.not_mem_nil _ h).elim
  | cons hd tl ih =>
    obtain ⟨k0, v0⟩ := hd
    rw [List.map_cons, List.nodup_cons] at hn
    rcases List.mem_cons.mp h with h1 | h1
    · obtain ⟨hk, hv⟩ := Prod.mk.inj h1
      subst hk
      rw [alookup, if_pos rfl, ← hv]
    · have hk0 : k0 ≠ k := by
        intro hkk
        subst hkk
        exact hn.1 (List.mem_map.mpr ⟨(k0, v), h1, rfl⟩)
      rw [alookup, if_neg hk0]
      exact ih hn.2 h1

theorem keys_addScore (sc : List (String × ℚ)) (g : String) (x : ℚ) :
    (addScore sc g x).map Prod.fst =
      if (alookup sc g).isSome = true then sc.map Prod.fst
      else sc.map Prod.fst ++ [g] := by
  induction sc with
  | nil => simp [addScore, alookup]
  | cons hd tl ih =>
    obtain ⟨g0, v⟩ := hd
    by_cases h : g0 = g
    · subst h
      simp [addScore, alookup]
    · rw [addScore]
      rw [if_neg h]
      rw [List.map_cons, ih, alookup, if_neg h]
      by_cases h2 : (alookup tl g).isSome = true
      · rw [if_pos h2, if_pos h2, List.map_cons]
      · rw [if_neg h2, if_neg h2, List.map_cons, List.cons_append]

theorem keysNodup_addScore (sc : List (String × ℚ)) (g : String) (x : ℚ)
    (h : (sc.map Prod.fst).Nodup) : ((addScore sc g x).map Prod.fst).Nodup := by
  rw [keys_addScore]
  by_cases h2 : (alookup sc g).isSome = true
  · rw [if_pos h2]
    exact h
  · rw [if_neg h2]
    have h3 : g ∉ sc.map Prod.fst := by
      rw [← alookup_eq_none_iff]
      cases h4 : alookup sc g with
      | none => rfl
      | some v => rw [h4] at h2; simp at h2
    simp [List.nodup_append, h, h3]

theorem keysNodup_innerFold (up : UserPrefs) (topG : List String) (w : ℚ) :
    ∀ sc : List (String × ℚ), (sc.map Prod.fst).Nodup →
    ((up.foldl (fun sc2 q =>
        if q.1 ∈ topG then sc2 else addScore sc2 q.1 (q.2.avg * w)) sc).map
      Prod.fst).Nodup := by
  induction up with
  | nil => intro sc h; exact h
  | cons hd tl ih =>
    intro sc h
    rw [List.foldl_cons]
    by_cases htop : hd.1 ∈ topG
    · rw [if_pos htop]
      exact ih sc h
    · rw [if_neg htop]
      exact ih _ (keysNodup_addScore sc hd.1 (hd.2.avg * w) h)

theorem keysNodup_collectScores (p : Prefs) (similar : List String)
    (topG : List String) :
    ((collectScores p similar topG).map Prod.fst).Nodup := by
  unfold collectScores
  have main : ∀ (us : List String) (sc : List (String × ℚ)),
      (sc.map Prod.fst).Nodup →
      ((us.foldl (fun sc u =>
          match alookup p u with
          | none => sc
          | some up => up.foldl (fun sc2 q =>
              if q.1 ∈ topG then sc2
              else addScore sc2 q.1 (q.2.avg * simWeight similar u)) sc) sc).map
        Prod.fst).Nodup := by
    intro us
    induction us with
    | nil => intro sc h; exact h
    | cons u us ih =>
      intro sc h
      rw [List.foldl_cons]
      cases hu : alookup p u with
      | none => exact ih sc h
      | some up => exact ih _ (keysNodup_innerFold up topG (simWeight similar u) sc h)
  exact main similar [] (by simp)

theorem mergeSort_head_mem (l : List (String × ℚ)) (y : String × ℚ)
    (rest : List (String × ℚ)) (le : (String × ℚ) → (String × ℚ) → Bool)
    (h : l.mergeSort le = y :: rest) : y ∈ l := by
  have := (List.mergeSort_perm l le).mem_iff.mp (by rw [h]; exact List.mem_cons_self _ _)
  exact this

theorem mergeSort_head_ge (l : List (String × ℚ)) (y : String × ℚ)
    (rest : List (String × ℚ))
    (h : l.mergeSort (fun a b => decide (b.2 ≤ a.2)) = y :: rest) :
    ∀ z ∈ l, z.2 ≤ y.2 := by
  have hs := @List.sorted_mergeSort (String × ℚ)
    (fun a b => decide (b.2 ≤ a.2))
    (fun a b c hab hbc => by
      simp only [decide_eq_true_eq] at *
      exact le_trans hbc hab)
    (fun a b => by
      rcases le_total b.2 a.2 with h2 | h2 <;> simp [h2]) l
  rw [h] at hs
  intro z hz
  have hz2 : z ∈ y :: rest := by
    rw [← h]
    exact (List.mergeSort_perm l _).mem_iff.mpr hz
  rcases List.mem_cons.mp hz2 with h3 | h3
  · subst h3
    exact le_refl _
  · have := (List.pairwise_cons.mp hs).1 z h3
    simpa using this

theorem allTerms_eq_nil_iff (p : Prefs) (similar us topG : List String)
    (g : String) :
    allTerms p similar us topG g = [] ↔
      ¬ ∃ u ∈ us, ∃ up, alookup p u = some up ∧ ∃ q ∈ up, q.1 = g ∧ q.1 ∉ topG := by
  unfold allTerms
  rw [List.flatMap_eq_nil_iff]
  constructor
  · rintro h ⟨u, hu, up, hup, q, hq, hq1, hq2⟩
    have h2 := h u hu
    unfold userTermsOf at h2
    rw [hup] at h2
    unfold userGenreTerms at h2
    rw [List.map_eq_nil_iff, List.filter_eq_nil_iff] at h2
    exact h2 q hq (decide_eq_true ⟨hq1, hq2⟩)
  · intro h u hu
    unfold userTermsOf
    cases hup : alookup p u with
    | none => rfl
    | some up =>
      unfold userGenreTerms
      rw [List.map_eq_nil_iff, List.filter_eq_nil_iff]
      intro q hq hdec
      simp only [decide_eq_true_eq] at hdec
      exact h ⟨u, hu, up, hup, q, hq, hdec.1, hdec.2⟩

/-- C4: under the guard conditions, `find_next_best_genre` returns `none`
exactly when no genre qualifies, and any returned genre qualifies and
maximizes the spec score `sum over users and qualifying entries of
average * (1 - index / length)` among all qualifying genres; moreover the
excluded set is exactly a top-`k` prefix by average of the target
preferences. -/
theorem claim_C4 (target : String) (p : Prefs) (similar : List String) (k : ℕ)
    (tp : UserPrefs) (h1 : similar ≠ []) (h2 : alookup p target = some tp) :
    (find_next_best_genre target p similar k = none ↔
      ∀ g, ¬ qualifies p similar (topGenres tp k) g) ∧
    (∀ g, find_next_best_genre target p similar k = some g →
      qualifies p similar (topGenres tp k) g ∧
      ∀ g2, qualifies p similar (topGenres tp k) g2 →
        specScore p similar (topGenres tp k) g2 ≤
          specScore p similar (topGenres tp k) g) ∧
    (∀ x ∈ (tp.mergeSort (fun a b => decide (b.2.avg ≤ a.2.avg))).take k,
      ∀ y ∈ (tp.mergeSort (fun a b => decide (b.2.avg ≤ a.2.avg))).drop k,
      y.2.avg ≤ x.2.avg) := by
  have hne : ¬ (similar = [] ∨ alookup p target = none) := by
    rintro (h | h)
    · exact h1 h
    · rw [h2] at h
      exact Option.noConfusion h
  have hfn : find_next_best_genre target p similar k =
      (if collectScores p similar (topGenres tp k) = [] then none
       else ((collectScores p similar (topGenres tp k)).mergeSort
          (fun a b => decide (b.2 ≤ a.2))).head?.map (fun q => q.1)) := by
    unfold find_next_best_genre
    rw [if_neg hne, h2]
    rfl
  have hqual : ∀ g, allTerms p similar similar (topGenres tp k) g ≠ [] ↔
      qualifies p similar (topGenres tp k) g := by
    intro g
    unfold qualifies
    rw [Ne, allTerms_eq_nil_iff, not_not]
  have htop : ∀ x ∈ (tp.mergeSort (fun a b => decide (b.2.avg ≤ a.2.avg))).take k,
      ∀ y ∈ (tp.mergeSort (fun a b => decide (b.2.avg ≤ a.2.avg))).drop k,
      y.2.avg ≤ x.2.avg := by
    have hsorted := @List.sorted_mergeSort (String × GenreStat)
      (fun a b => decide (b.2.avg ≤ a.2.avg))
      (fun a b c hab hbc => by
        simp only [decide_eq_true_eq] at *
        exact le_trans hbc hab)
      (fun a b => by
        rcases le_total b.2.avg a.2.avg with h3 | h3 <;> simp [h3]) tp
    rw [← List.take_append_drop k
      (tp.mergeSort (fun a b => decide (b.2.avg ≤ a.2.avg)))] at hsorted
    have := (List.pairwise_append.mp hsorted).2.2
    intro x hx y hy
    have h4 := this x hx y hy
    simpa using h4
  by_cases hS : collectScores p similar (topGenres tp k) = []
  · rw [hS] at hfn
    rw [if_pos rfl] at hfn
    refine ⟨?_, ?_, htop⟩
    · rw [hfn]
      simp only [true_iff]
      intro g hq
      have h3 := (hqual g).mpr hq
      have h4 := alookup_collectScores p similar (topGenres tp k) g
      rw [if_neg h3, hS] at h4
      exact Option.noConfusion h4.symm
    · intro g hg
      rw [hfn] at hg
      exact Option.noConfusion hg
  · cases hsort : (collectScores p similar (topGenres tp k)).mergeSort
        (fun a b => decide (b.2 ≤ a.2)) with
    | nil =>
      exfalso
      have := @List.length_mergeSort (String × ℚ)
        (fun a b => decide (b.2 ≤ a.2))
        (collectScores p similar (topGenres tp k))
      rw [hsort] at this
      exact hS (List.length_eq_zero.mp this.symm)
    | cons y rest =>
      rw [if_neg hS, hsort] at hfn
      simp only [List.head?_cons, Option.map_some] at hfn
      have hymem : (y.1, y.2) ∈ collectScores p similar (topGenres tp k) := by
        have := mergeSort_head_mem _ y rest _ hsort
        simpa using this
      have hylook : alookup (collectScores p similar (topGenres tp k)) y.1 =
          some y.2 :=
        mem_alookup_nodup _ y.1 y.2 (keysNodup_collectScores p similar _) hymem
      have hy4 := alookup_collectScores p similar (topGenres tp k) y.1
      have hyterms : allTerms p similar similar (topGenres tp k) y.1 ≠ [] := by
        intro hnil
        rw [if_pos hnil] at hy4
        rw [hy4] at hylook
        exact Option.noConfusion hylook
      have hyqual := (hqual y.1).mp hyterms
      have hyval : y.2 = specScore p similar (topGenres tp k) y.1 := by
        rw [if_neg hyterms] at hy4
        rw [hy4] at hylook
        exact (Option.some.inj hylook).symm
      refine ⟨?_, ?_, htop⟩
      · rw [hfn]
        constructor
        · intro habs
          exact Option.noConfusion habs
        · intro hall
          exact (hall y.1 hyqual).elim
      · intro g hg
        rw [hfn] at hg
        have hgy : g = y.1 := (Option.some.inj hg).symm
        subst hgy
        refine ⟨hyqual, ?_⟩
        intro g2 hq2
        have h3 := (hqual g2).mpr hq2
        have h4 := alookup_collectScores p similar (topGenres tp k) g2
        rw [if_neg h3] at h4
        have hmem2 : (g2, specScore p similar (topGenres tp k) g2) ∈
            collectScores p similar (topGenres tp k) :=
          alookup_mem _ g2 _ h4
        have h5 := mergeSort_head_ge _ y rest hsort _ hmem2
        rw [hyval] at h5
        exact h5

theorem allTerms_filter_present (p : Prefs) (similar us topG : List String)
    (g : String) :
    allTerms p similar (us.filter (fun u => (alookup p u).isSome)) topG g =
      allTerms p similar us topG g := by
  induction us with
  | nil => rfl
  | cons u us ih =>
    by_cases hu : (alookup p u).isSome = true
    · rw [List.filter_cons, if_pos hu]
      unfold allTerms at *
      rw [List.flatMap_cons, List.flatMap_cons, ih]
    · rw [List.filter_cons, if_neg hu]
      unfold allTerms at *
      rw [List.flatMap_cons, ih]
      have h0 : userTermsOf p similar topG g u = [] := by
        unfold userTermsOf
        cases h2 : alookup p u with
        | none => rfl
        | some up => rw [h2] at hu; simp at hu
      rw [h0, List.nil_append]

/-- C10: similar users absent from the preference mapping contribute no
score term, yet the score of every genre is still computed with the
rank-based weights of the full similar list (absent users included in
both the indices and the length). -/
theorem claim_C10 (p : Prefs) (similar : List String) (topG : List String)
    (h : ∃ u ∈ similar, alookup p u = none) :
    (∀ u ∈ similar, alookup p u = none →
      ∀ g, userTermsOf p similar topG g u = []) ∧
    (∀ g, alookup (collectScores p similar topG) g =
      if allTerms p similar (similar.filter (fun u => (alookup p u).isSome))
          topG g = [] then none
      else some ((allTerms p similar
          (similar.filter (fun u => (alookup p u).isSome)) topG g).sum)) := by
  refine ⟨?_, ?_⟩
  · intro u hu habs g
    unfold userTermsOf
    rw [habs]
  · intro g
    rw [alookup_collectScores, allTerms_filter_present]

theorem claim_C10_witness :
    alookup (collectScores demoPrefs ["ghost", "user_B"] ["Rock"]) "Pop" =
      if allTerms demoPrefs ["ghost", "user_B"]
          (["ghost", "user_B"].filter
            (fun u => (alookup demoPrefs u).isSome)) ["Rock"] "Pop" = []
      then none
      else some ((allTerms demoPrefs ["ghost", "user_B"]
          (["ghost", "user_B"].filter
            (fun u => (alookup demoPrefs u).isSome)) ["Rock"] "Pop").sum) :=
  (claim_C10 demoPrefs ["ghost", "user_B"] ["Rock"]
    ⟨"ghost", by simp, by simp [demoPrefs, alookup]⟩).2 "Pop"

/-- C5: an unknown target user makes the ranker return the empty list and
the recommender return `none`, and an empty similar-users list makes the
recommender return `none`; all three cases are ordinary returns of the
total functions, not errors. -/
theorem claim_C5 (p : Prefs) (target : String) (n k : ℕ) (similar : List String)
    (h : alookup p target = none) :
    find_similar_users target p n = [] ∧
    find_next_best_genre target p similar k = none ∧
    (∀ (p2 : Prefs) (t2 : String) (k2 : ℕ),
      find_next_best_genre t2 p2 [] k2 = none) := by
  refine ⟨?_, ?_, ?_⟩
  · unfold find_similar_users
    rw [h]
    rfl
  · unfold find_next_best_genre
    rw [if_pos (Or.inr h)]
  · intro p2 t2 k2
    unfold find_next_best_genre
    rw [if_pos (Or.inl rfl)]

theorem claim_C5_witness :
    find_similar_users "ghost" demoPrefs 3 = [] :=
  (claim_C5 demoPrefs "ghost" 3 2 ["user_B"] (by simp [demoPrefs, alookup])).1

theorem claim_C4_witness :
    specScore demoPrefs ["user_B"]
        (topGenres [("Rock", ⟨5, 5, 1⟩), ("Pop", ⟨2, 2, 1⟩)] 1) "Pop" ≤
      specScore demoPrefs ["user_B"]
        (topGenres [("Rock", ⟨5, 5, 1⟩), ("Pop", ⟨2, 2, 1⟩)] 1) "Pop" :=
  (((claim_C4 "user_A" demoPrefs ["user_B"] 1
      [("Rock", ⟨5, 5, 1⟩), ("Pop", ⟨2, 2, 1⟩)]
      (by simp) (by simp [demoPrefs, alookup])).2.1 "Pop"
    (by
      norm_num [find_next_best_genre, alookup, topGenres, collectScores, addScore,
        simWeight, idxOf, mergeSort_pair, demoPrefs]
      simp [alookup, addScore, List.mergeSort_singleton])).2 "Pop"
    ⟨"user_B", by simp, [("Rock", ⟨3, 3, 1⟩), ("Pop", ⟨4, 4, 1⟩)],
      by simp [demoPrefs, alookup], ("Pop", ⟨4, 4, 1⟩), by simp, rfl,
      by
        norm_num [topGenres, mergeSort_pair]
        decide⟩)

theorem alookup_map_isSome (p : Prefs) (f : String × UserPrefs → List ℚ)
    (key : String) :
    (alookup (p.map (fun q => (q.1, f q))) key).isSome =
      (alookup p key).isSome := by
  induction p with
  | nil => rfl
  | cons hd tl ih =>
    obtain ⟨k0, up0⟩ := hd
    by_cases h : k0 = key
    · simp [alookup, h]
    · simp only [List.map_cons, alookup, if_neg h]
      exact ih

/-- The ranker after its guards: similarity pairs for every other user,
stable descending sort, first `n` names. -/
theorem find_similar_users_eq (target : String) (p : Prefs) (n : ℕ)
    (tv : List ℚ) (h : (alookup p target).isSome = true)
    (hv : alookup (p.map (fun q => (q.1, vecOf (allGenresOf p) q.2))) target =
      some tv) :
    find_similar_users target p n =
      (((((p.map (fun q => (q.1, vecOf (allGenresOf p) q.2))).filter
          (fun q => decide (q.1 ≠ target))).map
          (fun q => (q.1, cosineSim tv q.2))).mergeSort
        (fun a b => decide (b.2 ≤ a.2))).take n).map (fun q => q.1) := by
  have hguard : ¬ ((alookup p target).isNone = true) := by
    cases h2 : alookup p target
    · rw [h2] at h
      exact absurd h (by simp)
    · simp
  unfold find_similar_users
  rw [if_neg hguard]
  simp only [hv]

/-- C6: for a known target, the ranker output has length at most
`min n` (number of other users), never contains the target, is empty for
`n = 0`, and contains every other user once `n` is at least the number of
candidates. -/
theorem claim_C6 (p : Prefs) (target : String) (n : ℕ)
    (h : (alookup p target).isSome = true) :
    (find_similar_users target p n).length ≤
      min n (((p.map (fun q => q.1)).filter
        (fun u => decide (u ≠ target))).length) ∧
    target ∉ find_similar_users target p n ∧
    (n = 0 → find_similar_users target p n = []) ∧
    (((p.map (fun q => q.1)).filter (fun u => decide (u ≠ target))).length ≤ n →
      ∀ c ∈ (p.map (fun q => q.1)).filter (fun u => decide (u ≠ target)),
        c ∈ find_similar_users target p n) := by
  have hvs : (alookup (p.map (fun q => (q.1, vecOf (allGenresOf p) q.2)))
      target).isSome = true := by
    rw [alookup_map_isSome]
    exact h
  cases hv : alookup (p.map (fun q => (q.1, vecOf (allGenresOf p) q.2))) target with
  | none => rw [hv] at hvs; exact absurd hvs (by simp)
  | some tv =>
    have hfs := find_similar_users_eq target p n tv h hv
    have hkeys : (((p.map (fun q => (q.1, vecOf (allGenresOf p) q.2))).filter
          (fun q => decide (q.1 ≠ target))).map
          (fun q => (q.1, cosineSim tv q.2))).map (fun q => q.1) =
        (p.map (fun q => q.1)).filter (fun u => decide (u ≠ target)) := by
      simp [List.filter_map, List.map_map, Function.comp_def]
    have hlen : (((p.map (fun q => (q.1, vecOf (allGenresOf p) q.2))).filter
          (fun q => decide (q.1 ≠ target))).map
          (fun q => (q.1, cosineSim tv q.2))).length =
        ((p.map (fun q => q.1)).filter (fun u => decide (u ≠ target))).length := by
      rw [← hkeys]
      simp [List.length_map]
    refine ⟨?_, ?_, ?_, ?_⟩
    · rw [hfs, List.length_map, List.length_take, List.length_mergeSort, hlen]
    · rw [hfs]
      intro hmem
      obtain ⟨q, hq, hq1⟩ := List.mem_map.mp hmem
      have hq2 := List.take_subset _ _ hq
      have hq3 := (List.mergeSort_perm _ _).mem_iff.mp hq2
      obtain ⟨q0, hq0, hq0e⟩ := List.mem_map.mp hq3
      have hpr := (List.mem_filter.mp hq0).2
      simp only [decide_eq_true_eq] at hpr
      apply hpr
      rw [← hq1, ← hq0e]
    · intro hn
      rw [hfs, hn]
      simp
    · intro hle c hc
      rw [hfs]
      have hslen : ((((p.map (fun q => (q.1, vecOf (allGenresOf p) q.2))).filter
            (fun q => decide (q.1 ≠ target))).map
            (fun q => (q.1, cosineSim tv q.2))).mergeSort
          (fun a b => decide (b.2 ≤ a.2))).length ≤ n := by
        rw [List.length_mergeSort, hlen]
        exact hle
      rw [List.take_of_length_le hslen]
      have hperm := (List.mergeSort_perm ((((p.map
          (fun q => (q.1, vecOf (allGenresOf p) q.2))).filter
          (fun q => decide (q.1 ≠ target))).map
          (fun q => (q.1, cosineSim tv q.2))))
          (fun a b => decide (b.2 ≤ a.2))).map (fun q => q.1)
      apply hperm.mem_iff.mpr
      rw [hkeys]
      exact hc

theorem claim_C6_witness :
    "user_A" ∉ find_similar_users "user_A" demoPrefs 1 :=
  (claim_C6 demoPrefs "user_A" 1 (by simp [demoPrefs, alookup])).2.1

theorem dotQ_self (v : List ℚ) : dotQ v v = sumSq v := by
  induction v with
  | nil => rfl
  | cons a t ih =>
    unfold dotQ sumSq at *
    simp only [List.zipWith_cons_cons, List.map_cons, List.sum_cons, ih]

theorem sumSq_pos (v : List ℚ) (h : ∃ x ∈ v, x ≠ 0) : 0 < sumSq v := by
  obtain ⟨x, hx, hx0⟩ := h
  have h1 : x * x ∈ v.map (fun y => y * y) := List.mem_map.mpr ⟨x, hx, rfl⟩
  have h2 : x * x ≤ sumSq v :=
    List.single_le_sum (fun y hy => by
      obtain ⟨z, hz, rfl⟩ := List.mem_map.mp hy
      exact mul_self_nonneg z) _ h1
  exact lt_of_lt_of_le (mul_self_pos.mpr hx0) h2

/-- C7: cosine similarity equals `dot / (norm * norm)` when both norms
are non-zero, is defined as `0` when either norm vanishes, is `0` against
any vector once one argument is all-zero, and is exactly `1` on two
identical non-zero vectors. -/
theorem claim_C7 :
    (∀ v w : List ℚ, normV v ≠ 0 → normV w ≠ 0 →
      cosineSim v w = ((dotQ v w : ℚ) : ℝ) / (normV v * normV w)) ∧
    (∀ v w : List ℚ, normV v = 0 ∨ normV w = 0 → cosineSim v w = 0) ∧
    (∀ v w : List ℚ, (∀ x ∈ v, x = 0) → cosineSim v w = 0) ∧
    (∀ v : List ℚ, (∃ x ∈ v, x ≠ 0) → cosineSim v v = 1) := by
  have hzero : ∀ v : List ℚ, (∀ x ∈ v, x = 0) → normV v = 0 := by
    intro v h
    unfold normV
    have hs : sumSq v = 0 := by
      unfold sumSq
      apply List.sum_eq_zero
      intro x hx
      obtain ⟨y, hy, rfl⟩ := List.mem_map.mp hx
      rw [h y hy]
      ring
    rw [hs]
    simp
  refine ⟨?_, ?_, ?_, ?_⟩
  · intro v w h1 h2
    unfold cosineSim
    rw [if_neg (not_or.mpr ⟨h1, h2⟩)]
  · intro v w h
    unfold cosineSim
    rw [if_pos h]
  · intro v w h
    unfold cosineSim
    rw [if_pos (Or.inl (hzero v h))]
  · intro v h
    have hpos : 0 < sumSq v := sumSq_pos v h
    have hcast : (0 : ℝ) < ((sumSq v : ℚ) : ℝ) := by exact_mod_cast hpos
    have hnz : normV v ≠ 0 := by
      unfold normV
      exact ne_of_gt (Real.sqrt_pos.mpr hcast)
    unfold cosineSim
    rw [if_neg (not_or.mpr ⟨hnz, hnz⟩), dotQ_self]
    unfold normV
    rw [Real.mul_self_sqrt (le_of_lt hcast)]
    exact div_self (ne_of_gt hcast)

theorem claim_C7_witness :
    cosineSim [1] [1] = 1 ∧ cosineSim [0] [2] = 0 :=
  ⟨claim_C7.2.2.2 [1] ⟨1, by simp, one_ne_zero⟩,
   claim_C7.2.2.1 [0] [2] (by simp)⟩
